import Mathlib

/-!
Verification of the dictionary-based IO adapters in
`monai/transforms/io/dictionary.py` (`LoadImaged`, `SaveImaged`).

A Python dict is embedded as an association list with the first binding of a
key authoritative; `dict(data)` (a shallow copy) is modelled both as a pure
value and, where aliasing matters, through an explicit store of records.
Errors raised by the Python code are values of `PyErr`: a `KeyError` from the
key iterator, or an error propagated from the wrapped load/save service.
-/

abbrev Key := String

/-- A data record: the mapping from keys to values that `__call__` receives. -/
abbrev Record (V : Type) := List (Key × V)

/-- `d[k]` read access on a record, `none` when the key is absent. -/
def lookupKey {V : Type} : Record V → Key → Option V
  | [], _ => none
  | (k', v) :: rest, k => if k' = k then some v else lookupKey rest k

/-- `d[k] = v` write access on a record: replace the binding if the key is
present, append it otherwise (Python dict update semantics). -/
def setKey {V : Type} : Record V → Key → V → Record V
  | [], k, v => [(k, v)]
  | (k', v') :: rest, k, v =>
      if k' = k then (k, v) :: rest else (k', v') :: setKey rest k v

/-- Errors surfacing from an adapter's `__call__`: the `KeyError` raised by
the key iterator on a missing configured key, or an error of the wrapped
load/save service propagated unmodified. -/
inductive PyErr (ε : Type) where
  | keyError (k : Key)
  | delegated (e : ε)
deriving DecidableEq, Repr

/-- Modelled from the spec: `monai.data.image_reader.ImageReader` (not under
src/) — a pluggable backend that reports whether it supports an input
(`verify_suffix`) and reads it (`read`), possibly failing. -/
structure ImageReader (V ε : Type) where
  verify_suffix : V → Bool
  read : V → Except ε V

/-- Modelled from the spec: the `monai.transforms.LoadImage` array transform
(`monai/transforms/io/array.py`, not under src/) — it holds the list of
registered readers in registration order, and an error raised when no
candidate reader accepts an input. -/
structure LoadImage (V ε : Type) where
  readers : List (ImageReader V ε)
  resolveErr : ε

/-- Modelled from the spec: `LoadImage.register` appends a reader to the
registered list. -/
def LoadImage.register {V ε : Type} (s : LoadImage V ε) (r : ImageReader V ε) :
    LoadImage V ε :=
  { s with readers := s.readers ++ [r] }

/-- Modelled from the spec and the `LoadImaged` docstring (src lines 45-52):
candidate readers are the runtime override first, then the registered readers
from the last to the first; the first candidate that supports the input is
chosen. -/
def LoadImage.resolve {V ε : Type} (s : LoadImage V ε)
    (override : Option (ImageReader V ε)) (v : V) : Option (ImageReader V ε) :=
  (override.toList ++ s.readers.reverse).find? (fun r => r.verify_suffix v)

/-- Modelled from the spec: invoking the load service on a value with an
optional runtime reader override — resolve a reader and read, or raise the
backend-resolution error when no candidate accepts the input. -/
def LoadImage.call {V ε : Type} (s : LoadImage V ε) (v : V)
    (override : Option (ImageReader V ε)) : Except ε V :=
  match s.resolve override v with
  | some r => r.read v
  | none => .error s.resolveErr

/-- Modelled from the spec: the `monai.transforms.SaveImage` array transform
(not under src/) — invoked for its side effect, it either succeeds or raises. -/
structure SaveImage (V ε : Type) where
  save : V → Except ε Unit

/-- `LoadImaged` as constructed: the configured keys and allow-missing flag
(kept by `MapTransform.__init__`, src line 103) and the wrapped `LoadImage`
service `self._loader` (src line 104). -/
structure LoadImaged (V ε : Type) where
  keys : List Key
  allow_missing_keys : Bool
  _loader : LoadImage V ε

/-- `LoadImaged.register` (src lines 106-107): forwards to the wrapped
service. -/
def LoadImaged.register {V ε : Type} (t : LoadImaged V ε)
    (reader : ImageReader V ε) : LoadImaged V ε :=
  { t with _loader := t._loader.register reader }

/-- `SaveImaged` as constructed: configured keys, allow-missing flag and the
wrapped `SaveImage` service `self.saver` (src lines 210-227). -/
structure SaveImaged (V ε : Type) where
  keys : List Key
  allow_missing_keys : Bool
  saver : SaveImage V ε

/-- The loop of `LoadImaged.__call__` (src lines 115-118) together with the
key iterator it drives. The iteration policy is modelled from the spec:
`MapTransform.key_iterator` (`monai/transforms/transform.py`, not under src/)
yields each configured key present in the record, in the key set's order, and
raises `KeyError` at a configured key absent from the record unless
`allow_missing_keys` is set, in which case the key is skipped.
Returns the list of keys on which the loader was invoked (in invocation
order), the record as mutated so far, and the error that aborted the loop,
if any. -/
def loadLoop {V ε : Type} (loadFn : V → Except ε V) (allowMissing : Bool) :
    List Key → Record V → List Key × Record V × Option (PyErr ε)
  | [], d => ([], d, none)
  | k :: ks, d =>
    match lookupKey d k with
    | some v =>
      match loadFn v with
      | .ok w =>
        let r := loadLoop loadFn allowMissing ks (setKey d k w)
        (k :: r.1, r.2)
      | .error e => ([k], d, some (.delegated e))
    | none =>
      if allowMissing then loadLoop loadFn allowMissing ks d
      else ([], d, some (.keyError k))

/-- The loader applied to one value inside `__call__`:
`self._loader(d[key], reader)` (src line 117). -/
def LoadImaged.loadFn {V ε : Type} (t : LoadImaged V ε)
    (reader : Option (ImageReader V ε)) : V → Except ε V :=
  fun v => t._loader.call v reader

/-- `LoadImaged.__call__` (src lines 109-118) instrumented: the `d = dict(data)`
shallow copy is the pure record value threaded through the loop. Returns the
invocation trace, the final (possibly partial) record and the aborting
error, if any. -/
def LoadImaged.callCore {V ε : Type} (t : LoadImaged V ε) (data : Record V)
    (reader : Option (ImageReader V ε)) :
    List Key × Record V × Option (PyErr ε) :=
  loadLoop (t.loadFn reader) t.allow_missing_keys t.keys data

/-- The observable outcome of `LoadImaged.__call__`: the returned record, or
the error raised. -/
def LoadImaged.call {V ε : Type} (t : LoadImaged V ε) (data : Record V)
    (reader : Option (ImageReader V ε)) : Except (PyErr ε) (Record V) :=
  match t.callCore data reader with
  | (_, d, none) => .ok d
  | (_, _, some e) => .error e

/-- The keys on which `LoadImaged.__call__` invoked the loader, in order. -/
def LoadImaged.callTrace {V ε : Type} (t : LoadImaged V ε) (data : Record V)
    (reader : Option (ImageReader V ε)) : List Key :=
  (t.callCore data reader).1

/-- The loop of `SaveImaged.__call__` (src lines 232-236) with the same
spec-modelled key iterator as `loadLoop`: for each configured key present,
`self.saver(img=d[key])` is invoked for its side effect and the record is not
written to. Returns the invocation trace, the record, and the aborting
error, if any. -/
def saveLoop {V ε : Type} (saveFn : V → Except ε Unit) (allowMissing : Bool) :
    List Key → Record V → List Key × Record V × Option (PyErr ε)
  | [], d => ([], d, none)
  | k :: ks, d =>
    match lookupKey d k with
    | some v =>
      match saveFn v with
      | .ok _ =>
        let r := saveLoop saveFn allowMissing ks d
        (k :: r.1, r.2)
      | .error e => ([k], d, some (.delegated e))
    | none =>
      if allowMissing then saveLoop saveFn allowMissing ks d
      else ([], d, some (.keyError k))

/-- `SaveImaged.__call__` (src lines 232-236) instrumented. -/
def SaveImaged.callCore {V ε : Type} (t : SaveImaged V ε) (data : Record V) :
    List Key × Record V × Option (PyErr ε) :=
  saveLoop t.saver.save t.allow_missing_keys t.keys data

/-- The observable outcome of `SaveImaged.__call__`. -/
def SaveImaged.call {V ε : Type} (t : SaveImaged V ε) (data : Record V) :
    Except (PyErr ε) (Record V) :=
  match t.callCore data with
  | (_, d, none) => .ok d
  | (_, _, some e) => .error e

/-- The keys on which `SaveImaged.__call__` invoked the saver, in order. -/
def SaveImaged.callTrace {V ε : Type} (t : SaveImaged V ε) (data : Record V) :
    List Key :=
  (t.callCore data).1

/-! ### Store semantics

`d = dict(data)` (src lines 115 and 233) builds a shallow copy: the caller's
mapping and the adapter's working mapping are distinct objects. To state that
the caller's mapping is untouched we run the same loops over an explicit
store: a list of records indexed by address. `dict(data)` allocates a fresh
address holding a copy of the record at the data address, and the loop writes
only through the fresh address. -/

abbrev Store (V : Type) := List (Record V)

/-- The loop of `LoadImaged.__call__` with `d[key] = ...` writing through an
address into the store. -/
def loadLoopS {V ε : Type} (loadFn : V → Except ε V) (allowMissing : Bool) :
    List Key → Store V → Nat → Store V × Option (PyErr ε)
  | [], σ, _ => (σ, none)
  | k :: ks, σ, a =>
    match lookupKey (σ.getD a []) k with
    | some v =>
      match loadFn v with
      | .ok w => loadLoopS loadFn allowMissing ks
          (σ.set a (setKey (σ.getD a []) k w)) a
      | .error e => (σ, some (.delegated e))
    | none =>
      if allowMissing then loadLoopS loadFn allowMissing ks σ a
      else (σ, some (.keyError k))

/-- `LoadImaged.__call__` over the store: `dict(data)` allocates a fresh
address at the end of the store holding a copy of the record at `dataAddr`,
the loop mutates only through that fresh address, and the fresh address (not
`dataAddr`) is returned. -/
def LoadImaged.callS {V ε : Type} (t : LoadImaged V ε) (σ : Store V)
    (dataAddr : Nat) (reader : Option (ImageReader V ε)) :
    Store V × Except (PyErr ε) Nat :=
  match loadLoopS (t.loadFn reader) t.allow_missing_keys t.keys
      (σ ++ [σ.getD dataAddr []]) σ.length with
  | (σ2, none) => (σ2, .ok σ.length)
  | (σ2, some e) => (σ2, .error e)

/-- `SaveImaged.__call__` over the store: `dict(data)` allocates a fresh copy;
the loop reads `d[key]` but never writes to the store, so the store after the
call is the original store extended by the copy. -/
def SaveImaged.callS {V ε : Type} (t : SaveImaged V ε) (σ : Store V)
    (dataAddr : Nat) : Store V × Except (PyErr ε) Nat :=
  match saveLoop t.saver.save t.allow_missing_keys t.keys (σ.getD dataAddr []) with
  | (_, _, none) => (σ ++ [σ.getD dataAddr []], .ok σ.length)
  | (_, _, some e) => (σ ++ [σ.getD dataAddr []], .error e)

/-- The record (or error) a store-level call hands back to the caller. -/
def LoadImaged.callSRes {V ε : Type} (t : LoadImaged V ε) (σ : Store V)
    (dataAddr : Nat) (reader : Option (ImageReader V ε)) :
    Except (PyErr ε) (Record V) :=
  ((t.callS σ dataAddr reader).2).map (fun a => (t.callS σ dataAddr reader).1.getD a [])

/-- The record (or error) a store-level save call hands back to the caller. -/
def SaveImaged.callSRes {V ε : Type} (t : SaveImaged V ε) (σ : Store V)
    (dataAddr : Nat) : Except (PyErr ε) (Record V) :=
  ((t.callS σ dataAddr).2).map (fun a => (t.callS σ dataAddr).1.getD a [])

/-! ### Constructors and deprecated arguments

`LoadImaged.__init__` (src lines 71-104) keeps `keys` and `allow_missing_keys`
and builds `self._loader = LoadImage(reader, dtype, ensure_channel_first,
*args, **kwargs)`; the deprecated parameters `meta_keys`, `meta_key_postfix`
(here `meta_key_pfx`), `overwriting` and `image_only` are accepted, trigger a
deprecation warning, and are never forwarded. `SaveImaged.__init__` (src
lines 188-227) keeps `keys` and `allow_missing_keys` and forwards the
remaining non-deprecated parameters verbatim to `SaveImage`. The `LoadImage` /
`SaveImage` constructors are not under src/; they are modelled from the spec
as arbitrary functions (`mkLoader`, `mkSaver`) of exactly the forwarded
arguments. -/

/-- `LoadImaged.__init__` (src lines 71-104). `Rdr`, `Dt`, `A` stand for the
Python types of `reader`, `dtype` and the extra `*args`/`**kwargs`. -/
def LoadImaged.init {V ε Rdr Dt A : Type}
    (mkLoader : Rdr → Dt → Bool → A → LoadImage V ε)
    (keys : List Key) (reader : Rdr) (dtype : Dt)
    (meta_keys : Option (List Key)) (meta_key_pfx : String)
    (overwriting : Bool) (image_only : Bool)
    (ensure_channel_first : Bool) (allow_missing_keys : Bool)
    (extraArgs : A) : LoadImaged V ε :=
  { keys := keys
    allow_missing_keys := allow_missing_keys
    _loader := mkLoader reader dtype ensure_channel_first extraArgs }

/-- `SaveImaged.__init__` (src lines 188-227). The fifteen forwarded
parameters are listed in the order of the `SaveImage(...)` call (src lines
211-227); `Dt` stands for the dtype values, `Wr` for the writer argument. -/
def SaveImaged.init {V ε Dt Wr : Type}
    (mkSaver : String → String → String → Bool → String → String →
      Option Nat → Dt → Dt → Bool → String → Bool → Bool → String →
      Option Wr → SaveImage V ε)
    (keys : List Key)
    (meta_keys : Option (List Key)) (meta_key_pfx : String)
    (output_dir : String) (output_pfx : String) (output_ext : String)
    (resample : Bool) (mode : String) (padding_mode : String)
    (scale : Option Nat) (dtype : Dt) (output_dtype : Dt)
    (allow_missing_keys : Bool) (squeeze_end_dims : Bool)
    (data_root_dir : String) (separate_folder : Bool) (print_log : Bool)
    (output_format : String) (writer : Option Wr) : SaveImaged V ε :=
  { keys := keys
    allow_missing_keys := allow_missing_keys
    saver := mkSaver output_dir output_pfx output_ext resample mode
      padding_mode scale dtype output_dtype squeeze_end_dims data_root_dir
      separate_folder print_log output_format writer }

/-! ### Basic record lemmas -/

theorem lookupKey_setKey_self {V : Type} (d : Record V) (k : Key) (w : V) :
    lookupKey (setKey d k w) k = some w := by
  induction d with
  | nil => simp [setKey, lookupKey]
  | cons p rest ih =>
    obtain ⟨a, b⟩ := p
    by_cases h : a = k
    · simp [setKey, h, lookupKey]
    · simp [setKey, h, lookupKey, ih]

theorem lookupKey_setKey_ne {V : Type} (d : Record V) {k k' : Key} (w : V)
    (h : k' ≠ k) : lookupKey (setKey d k w) k' = lookupKey d k' := by
  induction d with
  | nil => simp [setKey, lookupKey, Ne.symm h]
  | cons p rest ih =>
    obtain ⟨a, b⟩ := p
    by_cases ha : a = k
    · subst ha
      simp [setKey, lookupKey, Ne.symm h]
    · simp [setKey, ha, lookupKey, ih]

theorem isSome_lookupKey_setKey {V : Type} (d : Record V) {k : Key} (w : V)
    (hp : (lookupKey d k).isSome = true) (k' : Key) :
    (lookupKey (setKey d k w) k').isSome = (lookupKey d k').isSome := by
  by_cases h : k' = k
  · subst h
    simp [lookupKey_setKey_self, hp]
  · rw [lookupKey_setKey_ne _ _ h]

/-! ### Lemmas about the load loop -/

theorem loadLoop_keys_isSome {V ε : Type} (f : V → Except ε V) (am : Bool) :
    ∀ (ks : List Key) (d : Record V) (k : Key),
      (lookupKey (loadLoop f am ks d).2.1 k).isSome = (lookupKey d k).isSome := by
  intro ks
  induction ks with
  | nil => intro d k; rfl
  | cons k0 ks ih =>
    intro d k
    simp only [loadLoop]
    cases hl : lookupKey d k0 with
    | none =>
      cases am <;> simp [ih]
    | some v =>
      cases hf : f v with
      | ok w =>
        have hp : (lookupKey d k0).isSome = true := by simp [hl]
        simp only [hf]
        rw [ih (setKey d k0 w) k, isSome_lookupKey_setKey d w hp k]
      | error e => simp [hf]

theorem loadLoop_lookup_of_not_mem {V ε : Type} (f : V → Except ε V) (am : Bool) :
    ∀ (ks : List Key) (d : Record V) (k : Key), k ∉ ks →
      lookupKey (loadLoop f am ks d).2.1 k = lookupKey d k := by
  intro ks
  induction ks with
  | nil => intro d k _; rfl
  | cons k0 ks ih =>
    intro d k hk
    have hk0 : k ≠ k0 := fun h => hk (h ▸ List.mem_cons_self k0 ks)
    have hks : k ∉ ks := fun h => hk (List.mem_cons_of_mem k0 h)
    simp only [loadLoop]
    cases hl : lookupKey d k0 with
    | none => cases am <;> simp [ih _ _ hks]
    | some v =>
      cases hf : f v with
      | ok w =>
        simp only [hf]
        rw [ih _ _ hks, lookupKey_setKey_ne d w hk0]
      | error e => simp [hf]

theorem loadLoop_append_ok {V ε : Type} (f : V → Except ε V) (am : Bool) :
    ∀ (ks1 ks2 : List Key) (d : Record V) (tr : List Key) (d1 : Record V),
      loadLoop f am ks1 d = (tr, d1, none) →
      loadLoop f am (ks1 ++ ks2) d =
        (tr ++ (loadLoop f am ks2 d1).1, (loadLoop f am ks2 d1).2) := by
  intro ks1
  induction ks1 with
  | nil =>
    intro ks2 d tr d1 h
    simp only [loadLoop] at h
    injection h with h1 h2
    injection h2 with h2 h3
    subst h1; subst h2
    simp
  | cons k0 ks ih =>
    intro ks2 d tr d1 h
    simp only [List.cons_append, loadLoop] at h ⊢
    split at h
    case h_1 v heq =>
      split at h
      case h_1 w heqf =>
        injection h with h1 h2
        have hx : loadLoop f am ks (setKey d k0 w) =
            ((loadLoop f am ks (setKey d k0 w)).1, d1, none) := by
          rw [← h2]
        simp only [List.append_eq]
        rw [ih ks2 (setKey d k0 w) _ d1 hx, ← h1]
        simp
      case h_2 e heqf =>
        injection h with h1 h2
        injection h2 with h2 h3
        exact absurd h3 (by simp)
    case h_2 heq =>
      cases am with
      | false =>
        simp only [Bool.false_eq_true, if_false] at h
        injection h with h1 h2
        injection h2 with h2 h3
        exact absurd h3 (by simp)
      | true =>
        simp only [if_true] at h ⊢
        exact ih ks2 d tr d1 h

theorem loadLoop_append_err {V ε : Type} (f : V → Except ε V) (am : Bool) :
    ∀ (ks1 ks2 : List Key) (d : Record V) (tr : List Key) (d1 : Record V)
      (e : PyErr ε),
      loadLoop f am ks1 d = (tr, d1, some e) →
      loadLoop f am (ks1 ++ ks2) d = (tr, d1, some e) := by
  intro ks1
  induction ks1 with
  | nil =>
    intro ks2 d tr d1 e h
    simp only [loadLoop] at h
    injection h with h1 h2
    injection h2 with h2 h3
    exact absurd h3.symm (by simp)
  | cons k0 ks ih =>
    intro ks2 d tr d1 e h
    simp only [List.cons_append, loadLoop] at h ⊢
    split at h
    case h_1 v heq =>
      split at h
      case h_1 w heqf =>
        injection h with h1 h2
        have hx : loadLoop f am ks (setKey d k0 w) =
            ((loadLoop f am ks (setKey d k0 w)).1, d1, some e) := by
          rw [← h2]
        simp only [List.append_eq]
        rw [ih ks2 (setKey d k0 w) _ d1 e hx, ← h1]
      case h_2 e' heqf => exact h
    case h_2 heq =>
      cases am with
      | false => exact h
      | true =>
        simp only [if_true] at h ⊢
        exact ih ks2 d tr d1 e h

theorem loadLoop_trace_sublist {V ε : Type} (f : V → Except ε V) (am : Bool) :
    ∀ (ks : List Key) (d : Record V), List.Sublist (loadLoop f am ks d).1 ks := by
  intro ks
  induction ks with
  | nil => intro d; simp [loadLoop]
  | cons k0 ks ih =>
    intro d
    simp only [loadLoop]
    cases hl : lookupKey d k0 with
    | none =>
      cases am with
      | false => simp
      | true => simpa using List.Sublist.cons k0 (ih d)
    | some v =>
      cases hf : f v with
      | ok w => simpa [hf] using List.Sublist.cons₂ k0 (ih (setKey d k0 w))
      | error e => simp [hf]

theorem option_isNone_congr {α : Type} (o1 o2 : Option α)
    (h : o1.isSome = o2.isSome) : o1.isNone = o2.isNone := by
  cases o1 <;> cases o2 <;> simp_all

theorem filter_isSome_congr {V : Type} (d1 d2 : Record V)
    (h : ∀ k, (lookupKey d1 k).isSome = (lookupKey d2 k).isSome)
    (ks : List Key) :
    ks.filter (fun k => (lookupKey d1 k).isSome) =
      ks.filter (fun k => (lookupKey d2 k).isSome) := by
  have hfun : (fun k => (lookupKey d1 k).isSome) =
      (fun k => (lookupKey d2 k).isSome) := funext h
  rw [hfun]

theorem find?_isNone_congr {V : Type} (d1 d2 : Record V)
    (h : ∀ k, (lookupKey d1 k).isSome = (lookupKey d2 k).isSome)
    (ks : List Key) :
    ks.find? (fun k => (lookupKey d1 k).isNone) =
      ks.find? (fun k => (lookupKey d2 k).isNone) := by
  have hfun : (fun k => (lookupKey d1 k).isNone) =
      (fun k => (lookupKey d2 k).isNone) :=
    funext (fun k => option_isNone_congr _ _ (h k))
  rw [hfun]

theorem loadLoop_trace_of_ok {V ε : Type} (f : V → Except ε V) (am : Bool) :
    ∀ (ks : List Key) (d : Record V), (loadLoop f am ks d).2.2 = none →
      (loadLoop f am ks d).1 = ks.filter (fun k => (lookupKey d k).isSome) := by
  intro ks
  induction ks with
  | nil => intro d _; simp [loadLoop]
  | cons k0 ks ih =>
    intro d h
    cases hl : lookupKey d k0 with
    | none =>
      cases am with
      | false => simp [loadLoop, hl] at h
      | true =>
        simp only [loadLoop, hl, if_true] at h ⊢
        rw [List.filter_cons_of_neg (by simp [hl])]
        exact ih d h
    | some v =>
      cases hf : f v with
      | error e => simp [loadLoop, hl, hf] at h
      | ok w =>
        simp only [loadLoop, hl, hf] at h ⊢
        have hp0 : (lookupKey d k0).isSome = true := by simp [hl]
        rw [List.filter_cons_of_pos (by simp [hl])]
        rw [ih (setKey d k0 w) h,
          filter_isSome_congr (setKey d k0 w) d
            (isSome_lookupKey_setKey d w hp0) ks]

theorem loadLoop_ok_of_total_allow {V ε : Type} (f : V → Except ε V)
    (hT : ∀ v, ∃ w, f v = Except.ok w) :
    ∀ (ks : List Key) (d : Record V), (loadLoop f true ks d).2.2 = none := by
  intro ks
  induction ks with
  | nil => intro d; rfl
  | cons k0 ks ih =>
    intro d
    simp only [loadLoop]
    cases hl : lookupKey d k0 with
    | none => simp [ih]
    | some v =>
      obtain ⟨w, hw⟩ := hT v
      simp [hw, ih]

theorem loadLoop_ok_of_total_present {V ε : Type} (f : V → Except ε V)
    (am : Bool) (hT : ∀ v, ∃ w, f v = Except.ok w) :
    ∀ (ks : List Key) (d : Record V),
      (∀ k ∈ ks, (lookupKey d k).isSome = true) →
      (loadLoop f am ks d).2.2 = none := by
  intro ks
  induction ks with
  | nil => intro d _; rfl
  | cons k0 ks ih =>
    intro d hp
    have hp0 := hp k0 (List.mem_cons_self k0 ks)
    obtain ⟨v, hv⟩ := Option.isSome_iff_exists.mp hp0
    obtain ⟨w, hw⟩ := hT v
    simp only [loadLoop, hv, hw]
    exact ih (setKey d k0 w) (fun k hk => by
      rw [isSome_lookupKey_setKey d w hp0 k]
      exact hp k (List.mem_cons_of_mem _ hk))

theorem loadLoop_keyError {V ε : Type} (f : V → Except ε V)
    (hT : ∀ v, ∃ w, f v = Except.ok w) :
    ∀ (ks : List Key) (d : Record V) (k0 : Key),
      ks.find? (fun k => (lookupKey d k).isNone) = some k0 →
      (loadLoop f false ks d).2.2 = some (PyErr.keyError k0) := by
  intro ks
  induction ks with
  | nil => intro d k0 h; simp at h
  | cons k ks ih =>
    intro d k0 h
    simp only [loadLoop]
    cases hl : lookupKey d k with
    | none =>
      have hk : k = k0 := by
        rw [List.find?_cons_of_pos _ (by simp [hl])] at h
        exact Option.some.inj h
      subst hk
      simp
    | some v =>
      obtain ⟨w, hw⟩ := hT v
      have hfind : ks.find? (fun k' => (lookupKey d k').isNone) = some k0 := by
        rw [List.find?_cons_of_neg _ (by simp [hl])] at h
        exact h
      have hp0 : (lookupKey d k).isSome = true := by simp [hl]
      have hfind1 : ks.find? (fun k' => (lookupKey (setKey d k w) k').isNone)
          = some k0 := by
        rw [find?_isNone_congr (setKey d k w) d
          (isSome_lookupKey_setKey d w hp0) ks]
        exact hfind
      simp only [hl, hw]
      exact ih (setKey d k w) k0 hfind1

theorem loadLoop_values {V ε : Type} (f : V → Except ε V) (am : Bool) :
    ∀ (ks : List Key), ks.Nodup → ∀ (d : Record V),
      (∀ k ∈ ks, (lookupKey d k).isSome = true) →
      (loadLoop f am ks d).2.2 = none →
      ∀ k ∈ ks, ∃ v w, lookupKey d k = some v ∧ f v = Except.ok w ∧
        lookupKey (loadLoop f am ks d).2.1 k = some w := by
  intro ks
  induction ks with
  | nil => intro _ d _ _ k hk; simp at hk
  | cons k0 ks ih =>
    intro hnd d hp hok k hk
    obtain ⟨hk0ks, hndks⟩ := List.nodup_cons.mp hnd
    have hp0 := hp k0 (List.mem_cons_self k0 ks)
    obtain ⟨v, hv⟩ := Option.isSome_iff_exists.mp hp0
    cases hf : f v with
    | error e => simp [loadLoop, hv, hf] at hok
    | ok w =>
      simp only [loadLoop, hv, hf] at hok ⊢
      rcases List.mem_cons.mp hk with rfl | hkks
      · refine ⟨v, w, hv, hf, ?_⟩
        rw [loadLoop_lookup_of_not_mem f am ks _ k hk0ks,
          lookupKey_setKey_self]
      · have hp1 : ∀ k' ∈ ks, (lookupKey (setKey d k0 w) k').isSome = true := by
          intro k' hk'
          rw [isSome_lookupKey_setKey d w hp0 k']
          exact hp k' (List.mem_cons_of_mem _ hk')
        obtain ⟨v', w', hv', hf', hres⟩ :=
          ih hndks (setKey d k0 w) hp1 hok k hkks
        have hkne : k ≠ k0 := fun h => hk0ks (h ▸ hkks)
        refine ⟨v', w', ?_, hf', hres⟩
        rw [← hv', lookupKey_setKey_ne d w hkne]

/-! ### Lemmas about the save loop -/

theorem saveLoop_record {V ε : Type} (f : V → Except ε Unit) (am : Bool) :
    ∀ (ks : List Key) (d : Record V), (saveLoop f am ks d).2.1 = d := by
  intro ks
  induction ks with
  | nil => intro d; rfl
  | cons k0 ks ih =>
    intro d
    simp only [saveLoop]
    cases hl : lookupKey d k0 with
    | none => cases am <;> simp [ih]
    | some v =>
      cases hf : f v with
      | ok u => simp [hf, ih]
      | error e => simp [hf]

theorem saveLoop_trace_sublist {V ε : Type} (f : V → Except ε Unit) (am : Bool) :
    ∀ (ks : List Key) (d : Record V), List.Sublist (saveLoop f am ks d).1 ks := by
  intro ks
  induction ks with
  | nil => intro d; simp [saveLoop]
  | cons k0 ks ih =>
    intro d
    simp only [saveLoop]
    cases hl : lookupKey d k0 with
    | none =>
      cases am with
      | false => simp
      | true => simpa using List.Sublist.cons k0 (ih d)
    | some v =>
      cases hf : f v with
      | ok u => simpa [hf] using List.Sublist.cons₂ k0 (ih d)
      | error e => simp [hf]

theorem saveLoop_trace_of_ok {V ε : Type} (f : V → Except ε Unit) (am : Bool) :
    ∀ (ks : List Key) (d : Record V), (saveLoop f am ks d).2.2 = none →
      (saveLoop f am ks d).1 = ks.filter (fun k => (lookupKey d k).isSome) := by
  intro ks
  induction ks with
  | nil => intro d _; simp [saveLoop]
  | cons k0 ks ih =>
    intro d h
    cases hl : lookupKey d k0 with
    | none =>
      cases am with
      | false => simp [saveLoop, hl] at h
      | true =>
        simp only [saveLoop, hl, if_true] at h ⊢
        rw [List.filter_cons_of_neg (by simp [hl])]
        exact ih d h
    | some v =>
      cases hf : f v with
      | error e => simp [saveLoop, hl, hf] at h
      | ok u =>
        simp only [saveLoop, hl, hf] at h ⊢
        rw [List.filter_cons_of_pos (by simp [hl])]
        rw [ih d h]

theorem saveLoop_ok_of_total_allow {V ε : Type} (f : V → Except ε Unit)
    (hT : ∀ v, f v = Except.ok ()) :
    ∀ (ks : List Key) (d : Record V), (saveLoop f true ks d).2.2 = none := by
  intro ks
  induction ks with
  | nil => intro d; rfl
  | cons k0 ks ih =>
    intro d
    simp only [saveLoop]
    cases hl : lookupKey d k0 with
    | none => simp [ih]
    | some v => simp [hT v, ih]

theorem saveLoop_ok_of_total_present {V ε : Type} (f : V → Except ε Unit)
    (am : Bool) (hT : ∀ v, f v = Except.ok ()) :
    ∀ (ks : List Key) (d : Record V),
      (∀ k ∈ ks, (lookupKey d k).isSome = true) →
      (saveLoop f am ks d).2.2 = none := by
  intro ks
  induction ks with
  | nil => intro d _; rfl
  | cons k0 ks ih =>
    intro d hp
    have hp0 := hp k0 (List.mem_cons_self k0 ks)
    obtain ⟨v, hv⟩ := Option.isSome_iff_exists.mp hp0
    simp only [saveLoop, hv, hT v]
    exact ih d (fun k hk => hp k (List.mem_cons_of_mem _ hk))

theorem saveLoop_keyError {V ε : Type} (f : V → Except ε Unit)
    (hT : ∀ v, f v = Except.ok ()) :
    ∀ (ks : List Key) (d : Record V) (k0 : Key),
      ks.find? (fun k => (lookupKey d k).isNone) = some k0 →
      (saveLoop f false ks d).2.2 = some (PyErr.keyError k0) := by
  intro ks
  induction ks with
  | nil => intro d k0 h; simp at h
  | cons k ks ih =>
    intro d k0 h
    simp only [saveLoop]
    cases hl : lookupKey d k with
    | none =>
      have hk : k = k0 := by
        rw [List.find?_cons_of_pos _ (by simp [hl])] at h
        exact Option.some.inj h
      subst hk
      simp
    | some v =>
      have hfind : ks.find? (fun k' => (lookupKey d k').isNone) = some k0 := by
        rw [List.find?_cons_of_neg _ (by simp [hl])] at h
        exact h
      simp only [hl, hT v]
      exact ih d k0 hfind

theorem saveLoop_append_ok {V ε : Type} (f : V → Except ε Unit) (am : Bool) :
    ∀ (ks1 ks2 : List Key) (d : Record V) (tr : List Key) (d1 : Record V),
      saveLoop f am ks1 d = (tr, d1, none) →
      saveLoop f am (ks1 ++ ks2) d =
        (tr ++ (saveLoop f am ks2 d1).1, (saveLoop f am ks2 d1).2) := by
  intro ks1
  induction ks1 with
  | nil =>
    intro ks2 d tr d1 h
    simp only [saveLoop] at h
    injection h with h1 h2
    injection h2 with h2 h3
    subst h1; subst h2
    simp
  | cons k0 ks ih =>
    intro ks2 d tr d1 h
    simp only [List.cons_append, saveLoop] at h ⊢
    split at h
    case h_1 v heq =>
      split at h
      case h_1 u heqf =>
        injection h with h1 h2
        have hx : saveLoop f am ks d =
            ((saveLoop f am ks d).1, d1, none) := by
          rw [← h2]
        simp only [List.append_eq]
        rw [ih ks2 d _ d1 hx, ← h1]
        simp
      case h_2 e heqf =>
        injection h with h1 h2
        injection h2 with h2 h3
        exact absurd h3 (by simp)
    case h_2 heq =>
      cases am with
      | false =>
        simp only [Bool.false_eq_true, if_false] at h
        injection h with h1 h2
        injection h2 with h2 h3
        exact absurd h3 (by simp)
      | true =>
        simp only [if_true] at h ⊢
        exact ih ks2 d tr d1 h

/-! ### Store lemmas -/

theorem store_getD_set_self {α : Type} :
    ∀ (σ : List α) (a : Nat) (x d : α), a < σ.length →
      (σ.set a x).getD a d = x := by
  intro σ
  induction σ with
  | nil => intro a x d h; simp at h
  | cons y σ ih =>
    intro a x d h
    cases a with
    | zero => rfl
    | succ a => exact ih a x d (Nat.lt_of_succ_lt_succ h)

theorem store_getD_set_ne {α : Type} :
    ∀ (σ : List α) (a b : Nat) (x d : α), a ≠ b →
      (σ.set a x).getD b d = σ.getD b d := by
  intro σ
  induction σ with
  | nil => intro a b x d _; simp
  | cons y σ ih =>
    intro a b x d h
    cases a with
    | zero =>
      cases b with
      | zero => exact absurd rfl h
      | succ b => rfl
    | succ a =>
      cases b with
      | zero => rfl
      | succ b => exact ih a b x d (fun hh => h (congrArg Nat.succ hh))

theorem store_set_getD_self {α : Type} :
    ∀ (σ : List α) (a : Nat) (d : α), a < σ.length →
      σ.set a (σ.getD a d) = σ := by
  intro σ
  induction σ with
  | nil => intro a d h; simp at h
  | cons y σ ih =>
    intro a d h
    cases a with
    | zero => rfl
    | succ a =>
      simp only [List.set, List.getD_cons_succ]
      rw [ih a d (Nat.lt_of_succ_lt_succ h)]

theorem store_getD_append_left {α : Type} :
    ∀ (σ τ : List α) (a : Nat) (d : α), a < σ.length →
      (σ ++ τ).getD a d = σ.getD a d := by
  intro σ
  induction σ with
  | nil => intro τ a d h; simp at h
  | cons y σ ih =>
    intro τ a d h
    cases a with
    | zero => rfl
    | succ a => exact ih τ a d (Nat.lt_of_succ_lt_succ h)

theorem loadLoopS_sim {V ε : Type} (f : V → Except ε V) (am : Bool) :
    ∀ (ks : List Key) (σ : Store V) (a : Nat), a < σ.length →
      loadLoopS f am ks σ a =
        (σ.set a (loadLoop f am ks (σ.getD a [])).2.1,
          (loadLoop f am ks (σ.getD a [])).2.2) := by
  intro ks
  induction ks with
  | nil =>
    intro σ a ha
    simp only [loadLoopS, loadLoop]
    rw [store_set_getD_self σ a [] ha]
  | cons k0 ks ih =>
    intro σ a ha
    simp only [loadLoopS, loadLoop]
    cases hl : lookupKey (σ.getD a []) k0 with
    | none =>
      cases am with
      | false =>
        simp only [Bool.false_eq_true, if_false]
        rw [store_set_getD_self σ a [] ha]
      | true =>
        simp only [if_true]
        exact ih σ a ha
    | some v =>
      cases hf : f v with
      | error e =>
        simp only [hf]
        rw [store_set_getD_self σ a [] ha]
      | ok w =>
        simp only [hf]
        have hlen : a < (σ.set a (setKey (σ.getD a []) k0 w)).length := by
          rw [List.length_set]; exact ha
        rw [ih (σ.set a (setKey (σ.getD a []) k0 w)) a hlen]
        rw [store_getD_set_self σ a _ [] ha]
        rw [List.set_set]

theorem store_getD_append_len {α : Type} :
    ∀ (σ : List α) (x d : α), (σ ++ [x]).getD σ.length d = x := by
  intro σ
  induction σ with
  | nil => intro x d; rfl
  | cons y σ ih => intro x d; exact ih x d

theorem LoadImaged.callS_eq {V ε : Type} (t : LoadImaged V ε) (σ : Store V)
    (a : Nat) (reader : Option (ImageReader V ε)) (ha : a < σ.length) :
    t.callS σ a reader =
      ((σ ++ [σ.getD a []]).set σ.length
          (t.callCore (σ.getD a []) reader).2.1,
        (t.call (σ.getD a []) reader).map (fun _ => σ.length)) := by
  have hlen : σ.length < (σ ++ [σ.getD a []]).length := by
    simp
  have hcopy : (σ ++ [σ.getD a []]).getD σ.length [] = σ.getD a [] :=
    store_getD_append_len σ _ []
  simp only [LoadImaged.callS]
  rw [loadLoopS_sim (t.loadFn reader) t.allow_missing_keys t.keys
    (σ ++ [σ.getD a []]) σ.length hlen, hcopy]
  simp only [LoadImaged.call, LoadImaged.callCore]
  rcases hc : loadLoop (t.loadFn reader) t.allow_missing_keys t.keys
      (σ.getD a []) with ⟨tr, rec, err⟩
  cases err with
  | none => simp [Except.map]
  | some e => simp [Except.map]

theorem LoadImaged.callS_getD_old {V ε : Type} (t : LoadImaged V ε)
    (σ : Store V) (a : Nat) (reader : Option (ImageReader V ε))
    (ha : a < σ.length) :
    (t.callS σ a reader).1.getD a [] = σ.getD a [] := by
  rw [LoadImaged.callS_eq t σ a reader ha]
  have hne : σ.length ≠ a := Nat.ne_of_gt ha
  rw [store_getD_set_ne _ _ _ _ _ hne]
  exact store_getD_append_left σ _ a [] ha

theorem LoadImaged.callS_length {V ε : Type} (t : LoadImaged V ε)
    (σ : Store V) (a : Nat) (reader : Option (ImageReader V ε))
    (ha : a < σ.length) :
    (t.callS σ a reader).1.length = σ.length + 1 := by
  rw [LoadImaged.callS_eq t σ a reader ha]
  simp

theorem LoadImaged.callSRes_eq {V ε : Type} (t : LoadImaged V ε) (σ : Store V)
    (a : Nat) (reader : Option (ImageReader V ε)) (ha : a < σ.length) :
    t.callSRes σ a reader = t.call (σ.getD a []) reader := by
  have hlen : σ.length < (σ ++ [σ.getD a []]).length := by simp
  simp only [LoadImaged.callSRes]
  rw [LoadImaged.callS_eq t σ a reader ha]
  simp only [LoadImaged.call, LoadImaged.callCore]
  rcases hc : loadLoop (t.loadFn reader) t.allow_missing_keys t.keys
      (σ.getD a []) with ⟨tr, rec, err⟩
  cases err with
  | none =>
    simp only [Except.map]
    rw [store_getD_set_self _ _ _ _ hlen]
  | some e => simp [Except.map]

theorem saveImagedCallS_getD_old {V ε : Type} (t : SaveImaged V ε)
    (σ : Store V) (a : Nat) (ha : a < σ.length) :
    (t.callS σ a).1.getD a [] = σ.getD a [] := by
  simp only [SaveImaged.callS]
  cases he : (saveLoop t.saver.save t.allow_missing_keys t.keys
      (σ.getD a [])).2.2 with
  | none =>
    split
    case h_1 heq => exact store_getD_append_left σ _ a [] ha
    case h_2 e heq => exact store_getD_append_left σ _ a [] ha
  | some e =>
    split
    case h_1 heq => exact store_getD_append_left σ _ a [] ha
    case h_2 e heq => exact store_getD_append_left σ _ a [] ha

theorem saveImagedCallS_length {V ε : Type} (t : SaveImaged V ε)
    (σ : Store V) (a : Nat) :
    (t.callS σ a).1.length = σ.length + 1 := by
  simp only [SaveImaged.callS]
  rcases saveLoop t.saver.save t.allow_missing_keys t.keys (σ.getD a [])
    with ⟨tr, rec, err⟩
  cases err <;> simp

theorem saveImagedCallSRes_eq {V ε : Type} (t : SaveImaged V ε) (σ : Store V)
    (a : Nat) :
    t.callSRes σ a = t.call (σ.getD a []) := by
  simp only [SaveImaged.callSRes, SaveImaged.callS, SaveImaged.call,
    SaveImaged.callCore]
  have hrec := saveLoop_record t.saver.save t.allow_missing_keys t.keys
    (σ.getD a [])
  rcases hc : saveLoop t.saver.save t.allow_missing_keys t.keys (σ.getD a [])
    with ⟨tr, rec, err⟩
  rw [hc] at hrec
  cases err with
  | none =>
    simp only [Except.map]
    rw [store_getD_append_len σ _ []]
    rw [show rec = σ.getD a [] from hrec]
  | some e => simp [Except.map]

theorem LoadImaged.call_ok_iff {V ε : Type} (t : LoadImaged V ε)
    (data : Record V) (reader : Option (ImageReader V ε)) (d' : Record V) :
    t.call data reader = Except.ok d' ↔
      (t.callCore data reader).2.2 = none ∧
        (t.callCore data reader).2.1 = d' := by
  simp only [LoadImaged.call]
  rcases t.callCore data reader with ⟨tr, rec, err⟩
  cases err <;> simp

theorem LoadImaged.call_error_iff {V ε : Type} (t : LoadImaged V ε)
    (data : Record V) (reader : Option (ImageReader V ε)) (e : PyErr ε) :
    t.call data reader = Except.error e ↔
      (t.callCore data reader).2.2 = some e := by
  simp only [LoadImaged.call]
  rcases t.callCore data reader with ⟨tr, rec, err⟩
  cases err <;> simp

theorem saveImagedCall_ok_iff {V ε : Type} (t : SaveImaged V ε)
    (data : Record V) (d' : Record V) :
    t.call data = Except.ok d' ↔
      (t.callCore data).2.2 = none ∧ (t.callCore data).2.1 = d' := by
  simp only [SaveImaged.call]
  rcases t.callCore data with ⟨tr, rec, err⟩
  cases err <;> simp

theorem saveImagedCall_error_iff {V ε : Type} (t : SaveImaged V ε)
    (data : Record V) (e : PyErr ε) :
    t.call data = Except.error e ↔ (t.callCore data).2.2 = some e := by
  simp only [SaveImaged.call]
  rcases t.callCore data with ⟨tr, rec, err⟩
  cases err <;> simp

theorem loadLoop_error_at {V ε : Type} (f : V → Except ε V) (am : Bool)
    (ks1 ks2 : List Key) (d : Record V) (tr1 : List Key) (d1 : Record V)
    (k : Key) (v : V) (e : ε)
    (hpre : loadLoop f am ks1 d = (tr1, d1, none))
    (hv : lookupKey d1 k = some v)
    (he : f v = Except.error e) :
    loadLoop f am (ks1 ++ k :: ks2) d =
      (tr1 ++ [k], d1, some (PyErr.delegated e)) := by
  rw [loadLoop_append_ok f am ks1 (k :: ks2) d tr1 d1 hpre]
  simp [loadLoop, hv, he]

theorem saveLoop_error_at {V ε : Type} (f : V → Except ε Unit) (am : Bool)
    (ks1 ks2 : List Key) (d : Record V) (tr1 : List Key) (d1 : Record V)
    (k : Key) (v : V) (e : ε)
    (hpre : saveLoop f am ks1 d = (tr1, d1, none))
    (hv : lookupKey d1 k = some v)
    (he : f v = Except.error e) :
    saveLoop f am (ks1 ++ k :: ks2) d =
      (tr1 ++ [k], d1, some (PyErr.delegated e)) := by
  rw [saveLoop_append_ok f am ks1 (k :: ks2) d tr1 d1 hpre]
  simp [saveLoop, hv, he]

/-! ### Concrete instances used in the witnesses -/

/-- A reader accepting every input, loading `v` as `v + 100`. -/
def wReader : ImageReader Nat Nat :=
  { verify_suffix := fun _ => true, read := fun v => Except.ok (v + 100) }

/-- A reader accepting every input, loading `v` as `v + 1000`. -/
def wReader2 : ImageReader Nat Nat :=
  { verify_suffix := fun _ => true, read := fun v => Except.ok (v + 1000) }

/-- A reader that fails with error 42 on the value 7. -/
def wFailReader : ImageReader Nat Nat :=
  { verify_suffix := fun _ => true,
    read := fun v => if v = 7 then Except.error 42 else Except.ok (v + 100) }

/-- A load service holding just `wReader`. -/
def wLoader : LoadImage Nat Nat := { readers := [wReader], resolveErr := 0 }

/-- A load adapter over keys `img`, `seg`. -/
def wLoadT : LoadImaged Nat Nat :=
  { keys := ["img", "seg"], allow_missing_keys := false, _loader := wLoader }

/-- A load adapter configured with a key `gone`, not allowing missing keys. -/
def wLoadMiss : LoadImaged Nat Nat :=
  { keys := ["img", "gone"], allow_missing_keys := false, _loader := wLoader }

/-- A load adapter configured with a key `gone`, allowing missing keys. -/
def wLoadMissA : LoadImaged Nat Nat :=
  { keys := ["img", "gone"], allow_missing_keys := true, _loader := wLoader }

/-- A load adapter whose reader fails on the value at key `bad`. -/
def wLoadFail : LoadImaged Nat Nat :=
  { keys := ["img", "bad", "seg"], allow_missing_keys := false,
    _loader := { readers := [wFailReader], resolveErr := 0 } }

/-- A save service that always succeeds. -/
def wSaver : SaveImage Nat Nat := { save := fun _ => Except.ok () }

/-- A save service that fails with error 42 on the value 7. -/
def wFailSaver : SaveImage Nat Nat :=
  { save := fun v => if v = 7 then Except.error 42 else Except.ok () }

/-- A save adapter over keys `img`, `seg`. -/
def wSave : SaveImaged Nat Nat :=
  { keys := ["img", "seg"], allow_missing_keys := false, saver := wSaver }

/-- A save adapter configured with a key `gone`, not allowing missing keys. -/
def wSaveMiss : SaveImaged Nat Nat :=
  { keys := ["img", "gone"], allow_missing_keys := false, saver := wSaver }

/-- A save adapter configured with a key `gone`, allowing missing keys. -/
def wSaveMissA : SaveImaged Nat Nat :=
  { keys := ["img", "gone"], allow_missing_keys := true, saver := wSaver }

/-- A save adapter whose saver fails on the value at key `bad`. -/
def wSaveFail : SaveImaged Nat Nat :=
  { keys := ["img", "bad", "seg"], allow_missing_keys := false,
    saver := wFailSaver }

/-- A record with both configured keys present. -/
def wData : Record Nat := [("img", 1), ("seg", 2)]

/-- A record whose `bad` entry makes the failing services fail. -/
def wData3 : Record Nat := [("img", 1), ("bad", 7), ("seg", 2)]

/-- A record carrying an extra, non-configured key `meta`. -/
def wDataM : Record Nat := [("img", 1), ("seg", 2), ("meta", 9)]

/-! ### The claims -/

/-- Claim C1: for every record containing every configured key, a returning
`LoadImaged.__call__` yields a record whose value at each configured key is
the result of invoking the wrapped load service (with the optional per-call
reader override) on the record's original value at that key. The configured
keys form a key set (no duplicates). -/
theorem claim_C1_load_applies_service {V ε : Type} (t : LoadImaged V ε)
    (reader : Option (ImageReader V ε)) (data d' : Record V)
    (hnd : t.keys.Nodup)
    (hp : ∀ k ∈ t.keys, (lookupKey data k).isSome = true)
    (hok : t.call data reader = Except.ok d') :
    ∀ k ∈ t.keys, ∃ v w, lookupKey data k = some v ∧
      t._loader.call v reader = Except.ok w ∧ lookupKey d' k = some w := by
  rw [LoadImaged.call_ok_iff] at hok
  obtain ⟨herr, hrec⟩ := hok
  intro k hk
  obtain ⟨v, w, hv, hw, hres⟩ :=
    loadLoop_values (t.loadFn reader) t.allow_missing_keys t.keys hnd data
      hp herr k hk
  exact ⟨v, w, hv, hw, by rw [← hrec]; exact hres⟩

/-- Claim C1 witness: on `wLoadT` and `wData` every hypothesis holds and the
value at `img` is the service's result on the original value. -/
theorem claim_C1_witness :
    wLoadT.keys.Nodup ∧
    (∀ k ∈ wLoadT.keys, (lookupKey wData k).isSome = true) ∧
    wLoadT.call wData none = Except.ok [("img", 101), ("seg", 102)] ∧
    (∃ v w, lookupKey wData "img" = some v ∧
      wLoadT._loader.call v none = Except.ok w ∧
      lookupKey [("img", 101), ("seg", 102)] "img" = some w) :=
  ⟨by decide, by decide, by rfl,
    claim_C1_load_applies_service wLoadT none wData
      [("img", 101), ("seg", 102)] (by decide) (by decide) (by rfl)
      "img" (by decide)⟩

/-- Claim C2: for a record missing at least one configured key (and services
that do not fail on their own): with `allow_missing_keys = false` the call
raises the `KeyError` for the first missing configured key; with
`allow_missing_keys = true` the call returns and key presence in the result
matches key presence in the input exactly (missing keys stay absent). Both
adapters. -/
theorem claim_C2_missing_key_policy {V ε : Type} :
    (∀ (t : LoadImaged V ε) (reader : Option (ImageReader V ε))
        (data : Record V) (k0 : Key),
      t.allow_missing_keys = false →
      (∀ v, ∃ w, t._loader.call v reader = Except.ok w) →
      t.keys.find? (fun k => (lookupKey data k).isNone) = some k0 →
      t.call data reader = Except.error (PyErr.keyError k0)) ∧
    (∀ (t : LoadImaged V ε) (reader : Option (ImageReader V ε))
        (data : Record V),
      t.allow_missing_keys = true →
      (∀ v, ∃ w, t._loader.call v reader = Except.ok w) →
      ∃ d', t.call data reader = Except.ok d' ∧
        ∀ k, (lookupKey d' k).isSome = (lookupKey data k).isSome) ∧
    (∀ (t : SaveImaged V ε) (data : Record V) (k0 : Key),
      t.allow_missing_keys = false →
      (∀ v, t.saver.save v = Except.ok ()) →
      t.keys.find? (fun k => (lookupKey data k).isNone) = some k0 →
      t.call data = Except.error (PyErr.keyError k0)) ∧
    (∀ (t : SaveImaged V ε) (data : Record V),
      t.allow_missing_keys = true →
      (∀ v, t.saver.save v = Except.ok ()) →
      t.call data = Except.ok data) := by
  refine ⟨?_, ?_, ?_, ?_⟩
  · intro t reader data k0 ham hT hfind
    rw [LoadImaged.call_error_iff]
    simp only [LoadImaged.callCore, ham]
    exact loadLoop_keyError (t.loadFn reader) hT t.keys data k0 hfind
  · intro t reader data ham hT
    refine ⟨(t.callCore data reader).2.1, ?_, ?_⟩
    · rw [LoadImaged.call_ok_iff]
      refine ⟨?_, rfl⟩
      simp only [LoadImaged.callCore, ham]
      exact loadLoop_ok_of_total_allow (t.loadFn reader) hT t.keys data
    · intro k
      exact loadLoop_keys_isSome (t.loadFn reader) t.allow_missing_keys
        t.keys data k
  · intro t data k0 ham hT hfind
    rw [saveImagedCall_error_iff]
    simp only [SaveImaged.callCore, ham]
    exact saveLoop_keyError t.saver.save hT t.keys data k0 hfind
  · intro t data ham hT
    rw [saveImagedCall_ok_iff]
    refine ⟨?_, ?_⟩
    · simp only [SaveImaged.callCore, ham]
      exact saveLoop_ok_of_total_allow t.saver.save hT t.keys data
    · simp only [SaveImaged.callCore]
      exact saveLoop_record t.saver.save t.allow_missing_keys t.keys data

/-- Claim C2 witness: the four parts at concrete adapters configured with the
absent key `gone` over `wData`. -/
theorem claim_C2_witness :
    wLoadMiss.call wData none = Except.error (PyErr.keyError "gone") ∧
    (∃ d', wLoadMissA.call wData none = Except.ok d' ∧
      ∀ k, (lookupKey d' k).isSome = (lookupKey wData k).isSome) ∧
    wSaveMiss.call wData = Except.error (PyErr.keyError "gone") ∧
    wSaveMissA.call wData = Except.ok wData :=
  ⟨(@claim_C2_missing_key_policy Nat Nat).1 wLoadMiss none wData "gone" rfl
      (fun v => ⟨v + 100, rfl⟩) (by decide),
    (@claim_C2_missing_key_policy Nat Nat).2.1 wLoadMissA none wData rfl
      (fun v => ⟨v + 100, rfl⟩),
    (@claim_C2_missing_key_policy Nat Nat).2.2.1 wSaveMiss wData "gone" rfl
      (fun v => rfl) (by decide),
    (@claim_C2_missing_key_policy Nat Nat).2.2.2 wSaveMissA wData rfl
      (fun v => rfl)⟩

/-- Claim C3: whenever `SaveImaged.__call__` returns a record, that record is
the input record, unchanged in content — saving is purely a side effect. -/
theorem claim_C3_save_preserves_record {V ε : Type} (t : SaveImaged V ε)
    (data d' : Record V) (hok : t.call data = Except.ok d') : d' = data := by
  rw [saveImagedCall_ok_iff] at hok
  obtain ⟨_, hrec⟩ := hok
  rw [← hrec]
  exact saveLoop_record t.saver.save t.allow_missing_keys t.keys data

/-- Claim C3 witness: `wSave` on `wData` returns and the theorem applies. -/
theorem claim_C3_witness :
    wSave.call wData = Except.ok wData ∧ wData = wData :=
  ⟨by rfl, claim_C3_save_preserves_record wSave wData wData (by rfl)⟩

/-- Claim C4: both adapters work on a shallow copy. In the store semantics,
after a call (returning or raising) the record at the caller's address is
unchanged, and on return the address handed back is the fresh copy's, never
the caller's. -/
theorem claim_C4_shallow_copy {V ε : Type} (t : LoadImaged V ε)
    (s : SaveImaged V ε) (σ : Store V) (a : Nat)
    (reader : Option (ImageReader V ε)) (ha : a < σ.length) :
    (t.callS σ a reader).1.getD a [] = σ.getD a [] ∧
    (∀ ad, (t.callS σ a reader).2 = Except.ok ad → ad ≠ a) ∧
    (s.callS σ a).1.getD a [] = σ.getD a [] ∧
    (∀ ad, (s.callS σ a).2 = Except.ok ad → ad ≠ a) := by
  refine ⟨LoadImaged.callS_getD_old t σ a reader ha, ?_,
    saveImagedCallS_getD_old s σ a ha, ?_⟩
  · intro ad h
    rw [LoadImaged.callS_eq t σ a reader ha] at h
    cases hcall : t.call (σ.getD a []) reader with
    | ok d' =>
      rw [hcall] at h
      simp only [Except.map] at h
      injection h with h1
      rw [← h1]
      exact Nat.ne_of_gt ha
    | error e =>
      rw [hcall] at h
      simp [Except.map] at h
  · intro ad h
    simp only [SaveImaged.callS] at h
    rcases hc : saveLoop s.saver.save s.allow_missing_keys s.keys
      (σ.getD a []) with ⟨tr, rec, err⟩
    rw [hc] at h
    cases err with
    | none =>
      injection h with h1
      rw [← h1]
      exact Nat.ne_of_gt ha
    | some e => simp at h

/-- Claim C4 witness: the store `[wData]` at address 0, both adapters. -/
theorem claim_C4_witness :
    (wLoadT.callS [wData] 0 none).1.getD 0 [] =
      ([wData] : Store Nat).getD 0 [] ∧
    (∀ ad, (wLoadT.callS [wData] 0 none).2 = Except.ok ad → ad ≠ 0) ∧
    (wSave.callS [wData] 0).1.getD 0 [] = ([wData] : Store Nat).getD 0 [] ∧
    (∀ ad, (wSave.callS [wData] 0).2 = Except.ok ad → ad ≠ 0) :=
  claim_C4_shallow_copy wLoadT wSave [wData] 0 none (by decide)

/-- Claim C5: a failing service call at a configured key aborts the rest of
the call. In detail: if the keys split as `ks1 ++ k :: ks2`, the loop over
`ks1` completes without error, and the service fails with `e` on the current
value at `k`, then the call raises exactly that error (wrapped as a delegated
error, unmodified), the invocation trace ends at `k` (no key of `ks2` is
processed), the working record keeps the mutations of `ks1` (no rollback),
and in the store semantics the fresh copy still holds those mutations after
the abort. Both adapters. -/
theorem claim_C5_error_aborts {V ε : Type} :
    (∀ (t : LoadImaged V ε) (reader : Option (ImageReader V ε))
        (data : Record V) (ks1 ks2 : List Key) (k : Key) (v : V) (e : ε),
      t.keys = ks1 ++ k :: ks2 →
      (loadLoop (t.loadFn reader) t.allow_missing_keys ks1 data).2.2 = none →
      lookupKey (loadLoop (t.loadFn reader) t.allow_missing_keys ks1
        data).2.1 k = some v →
      t._loader.call v reader = Except.error e →
      t.call data reader = Except.error (PyErr.delegated e) ∧
      t.callTrace data reader =
        (loadLoop (t.loadFn reader) t.allow_missing_keys ks1 data).1 ++ [k] ∧
      (t.callCore data reader).2.1 =
        (loadLoop (t.loadFn reader) t.allow_missing_keys ks1 data).2.1 ∧
      (∀ (σ : Store V) (a : Nat), a < σ.length → σ.getD a [] = data →
        (t.callS σ a reader).1.getD σ.length [] =
          (loadLoop (t.loadFn reader) t.allow_missing_keys ks1 data).2.1)) ∧
    (∀ (s : SaveImaged V ε) (data : Record V) (ks1 ks2 : List Key) (k : Key)
        (v : V) (e : ε),
      s.keys = ks1 ++ k :: ks2 →
      (saveLoop s.saver.save s.allow_missing_keys ks1 data).2.2 = none →
      lookupKey data k = some v →
      s.saver.save v = Except.error e →
      s.call data = Except.error (PyErr.delegated e) ∧
      s.callTrace data =
        (saveLoop s.saver.save s.allow_missing_keys ks1 data).1 ++ [k]) := by
  constructor
  · intro t reader data ks1 ks2 k v e hkeys hpre hv he
    rcases hc : loadLoop (t.loadFn reader) t.allow_missing_keys ks1 data
      with ⟨tr1, d1, err1⟩
    rw [hc] at hpre hv
    simp only at hpre hv
    subst hpre
    have hfull : loadLoop (t.loadFn reader) t.allow_missing_keys
        (ks1 ++ k :: ks2) data = (tr1 ++ [k], d1, some (PyErr.delegated e)) :=
      loadLoop_error_at (t.loadFn reader) t.allow_missing_keys ks1 ks2 data
        tr1 d1 k v e hc hv he
    have hcore : t.callCore data reader =
        (tr1 ++ [k], d1, some (PyErr.delegated e)) := by
      simp only [LoadImaged.callCore, hkeys]
      exact hfull
    refine ⟨?_, ?_, ?_, ?_⟩
    · rw [LoadImaged.call_error_iff, hcore]
    · simp [LoadImaged.callTrace, hcore, hc]
    · simp [hcore, hc]
    · intro σ a haσ hdat
      rw [LoadImaged.callS_eq t σ a reader haσ, hdat]
      have hlen : σ.length < (σ ++ [data]).length := by simp
      simp only [hcore]
      exact store_getD_set_self _ _ _ _ hlen
  · intro s data ks1 ks2 k v e hkeys hpre hv he
    rcases hc : saveLoop s.saver.save s.allow_missing_keys ks1 data
      with ⟨tr1, d1, err1⟩
    rw [hc] at hpre
    simp only at hpre
    subst hpre
    have hd1 : d1 = data := by
      have hrec := saveLoop_record s.saver.save s.allow_missing_keys ks1 data
      rw [hc] at hrec
      exact hrec
    have hv1 : lookupKey d1 k = some v := by rw [hd1]; exact hv
    have hfull : saveLoop s.saver.save s.allow_missing_keys
        (ks1 ++ k :: ks2) data = (tr1 ++ [k], d1, some (PyErr.delegated e)) :=
      saveLoop_error_at s.saver.save s.allow_missing_keys ks1 ks2 data
        tr1 d1 k v e hc hv1 he
    have hcore : s.callCore data =
        (tr1 ++ [k], d1, some (PyErr.delegated e)) := by
      simp only [SaveImaged.callCore, hkeys]
      exact hfull
    refine ⟨?_, ?_⟩
    · rw [saveImagedCall_error_iff, hcore]
    · simp [SaveImaged.callTrace, hcore, hc]

/-- Claim C5 witness: on a record whose `bad` entry makes the service fail,
both adapters abort with the delegated error after processing `img` only. -/
theorem claim_C5_witness :
    wLoadFail.call wData3 none = Except.error (PyErr.delegated 42) ∧
    wLoadFail.callTrace wData3 none = ["img", "bad"] ∧
    wSaveFail.call wData3 = Except.error (PyErr.delegated 42) ∧
    wSaveFail.callTrace wData3 = ["img", "bad"] := by
  have hl := (@claim_C5_error_aborts Nat Nat).1 wLoadFail none wData3
    ["img"] ["seg"] "bad" 7 42 rfl (by decide) (by decide) (by rfl)
  have hs := (@claim_C5_error_aborts Nat Nat).2 wSaveFail wData3
    ["img"] ["seg"] "bad" 7 42 rfl (by decide) (by decide) (by rfl)
  refine ⟨hl.1, ?_, hs.1, ?_⟩
  · rw [hl.2.1]; decide
  · rw [hs.2]; decide

/-- Claim C6: every key of the input record outside the configured key set
appears in the returned record bound to the same value as in the input. -/
theorem claim_C6_other_keys_untouched {V ε : Type} (t : LoadImaged V ε)
    (reader : Option (ImageReader V ε)) (data d' : Record V) (k : Key)
    (hok : t.call data reader = Except.ok d') (hk : k ∉ t.keys) :
    lookupKey d' k = lookupKey data k := by
  rw [LoadImaged.call_ok_iff] at hok
  obtain ⟨_, hrec⟩ := hok
  rw [← hrec]
  exact loadLoop_lookup_of_not_mem (t.loadFn reader) t.allow_missing_keys
    t.keys data k hk

/-- Claim C6 witness: the non-configured key `meta` keeps its value. -/
theorem claim_C6_witness :
    wLoadT.call wDataM none =
      Except.ok [("img", 101), ("seg", 102), ("meta", 9)] ∧
    ("meta" ∉ wLoadT.keys) ∧
    lookupKey [("img", 101), ("seg", 102), ("meta", 9)] "meta" =
      lookupKey wDataM "meta" :=
  ⟨by rfl, by decide,
    claim_C6_other_keys_untouched wLoadT none wDataM
      [("img", 101), ("seg", 102), ("meta", 9)] "meta" (by rfl) (by decide)⟩

/-- Claim C7: each call processes the configured keys strictly in the key
set's order: the invocation trace is a sublist of the configured keys (order
preserved), and on an error-free call it is exactly the configured keys
present in the record, in configuration order. Both adapters. -/
theorem claim_C7_keys_in_order {V ε : Type} :
    (∀ (t : LoadImaged V ε) (reader : Option (ImageReader V ε))
        (data : Record V),
      List.Sublist (t.callTrace data reader) t.keys ∧
      ((t.callCore data reader).2.2 = none →
        t.callTrace data reader =
          t.keys.filter (fun k => (lookupKey data k).isSome))) ∧
    (∀ (s : SaveImaged V ε) (data : Record V),
      List.Sublist (s.callTrace data) s.keys ∧
      ((s.callCore data).2.2 = none →
        s.callTrace data =
          s.keys.filter (fun k => (lookupKey data k).isSome))) := by
  constructor
  · intro t reader data
    constructor
    · exact loadLoop_trace_sublist (t.loadFn reader) t.allow_missing_keys
        t.keys data
    · intro h
      exact loadLoop_trace_of_ok (t.loadFn reader) t.allow_missing_keys
        t.keys data h
  · intro s data
    constructor
    · exact saveLoop_trace_sublist s.saver.save s.allow_missing_keys
        s.keys data
    · intro h
      exact saveLoop_trace_of_ok s.saver.save s.allow_missing_keys
        s.keys data h

/-- Claim C7 witness: traces of both adapters on `wData`, with the
error-free hypothesis discharged. -/
theorem claim_C7_witness :
    List.Sublist (wLoadT.callTrace wData none) wLoadT.keys ∧
    wLoadT.callTrace wData none =
      wLoadT.keys.filter (fun k => (lookupKey wData k).isSome) ∧
    List.Sublist (wSave.callTrace wData) wSave.keys ∧
    wSave.callTrace wData =
      wSave.keys.filter (fun k => (lookupKey wData k).isSome) :=
  ⟨((@claim_C7_keys_in_order Nat Nat).1 wLoadT none wData).1,
    ((@claim_C7_keys_in_order Nat Nat).1 wLoadT none wData).2 (by rfl),
    ((@claim_C7_keys_in_order Nat Nat).2 wSave wData).1,
    ((@claim_C7_keys_in_order Nat Nat).2 wSave wData).2 (by rfl)⟩

/-- Claim C8: repeated calls reproduce the same transformation. In the store
semantics, calling an adapter again on the same data address after a first
call hands the caller the same outcome (same record on success, same error on
failure) as the first call; the adapters hold no mutable state between calls
beyond their construction-time configuration. Both adapters. -/
theorem claim_C8_reentrant {V ε : Type} (t : LoadImaged V ε)
    (s : SaveImaged V ε) (σ : Store V) (a : Nat)
    (reader : Option (ImageReader V ε)) (ha : a < σ.length) :
    t.callSRes ((t.callS σ a reader).1) a reader = t.callSRes σ a reader ∧
    s.callSRes ((s.callS σ a).1) a = s.callSRes σ a := by
  constructor
  · have h1 : a < (t.callS σ a reader).1.length := by
      rw [LoadImaged.callS_length t σ a reader ha]
      exact Nat.lt_succ_of_lt ha
    rw [LoadImaged.callSRes_eq t _ a reader h1,
      LoadImaged.callSRes_eq t σ a reader ha,
      LoadImaged.callS_getD_old t σ a reader ha]
  · rw [saveImagedCallSRes_eq s _ a, saveImagedCallSRes_eq s σ a,
      saveImagedCallS_getD_old s σ a ha]

/-- Claim C8 witness: the store `[wData]` at address 0, both adapters. -/
theorem claim_C8_witness :
    wLoadT.callSRes ((wLoadT.callS [wData] 0 none).1) 0 none =
      wLoadT.callSRes [wData] 0 none ∧
    wSave.callSRes ((wSave.callS [wData] 0).1) 0 =
      wSave.callSRes [wData] 0 :=
  claim_C8_reentrant wLoadT wSave [wData] 0 none (by decide)

/-- Claim C9: after `register(reader)`, an apply with no per-call override
prefers the newly registered reader for inputs it supports: the service
resolves candidates from the last registered to the first, so the new reader
is chosen and its result lands in the record. -/
theorem claim_C9_register_prefers_new {V ε : Type} (t : LoadImaged V ε)
    (r : ImageReader V ε) (v : V) (hs : r.verify_suffix v = true) :
    (t.register r)._loader.resolve none v = some r ∧
    (t.register r)._loader.call v none = r.read v ∧
    (∀ (data d' : Record V) (k : Key) (v' : V),
      (t.register r).keys.Nodup →
      (∀ k' ∈ (t.register r).keys, (lookupKey data k').isSome = true) →
      (t.register r).call data none = Except.ok d' →
      k ∈ (t.register r).keys → lookupKey data k = some v' →
      r.verify_suffix v' = true →
      ∃ w, r.read v' = Except.ok w ∧ lookupKey d' k = some w) := by
  have hres : ∀ v0, r.verify_suffix v0 = true →
      (t.register r)._loader.resolve none v0 = some r := by
    intro v0 hs0
    simp only [LoadImaged.register, LoadImage.register, LoadImage.resolve,
      Option.toList, List.reverse_append]
    simp [List.find?_cons_of_pos, hs0]
  have hcall : ∀ v0, r.verify_suffix v0 = true →
      (t.register r)._loader.call v0 none = r.read v0 := by
    intro v0 hs0
    simp only [LoadImage.call]
    rw [hres v0 hs0]
  refine ⟨hres v hs, hcall v hs, ?_⟩
  intro data d' k v' hnd hp hok hk hv' hs'
  rw [LoadImaged.call_ok_iff] at hok
  obtain ⟨herr, hrec⟩ := hok
  obtain ⟨v0, w, hv0, hw, hres'⟩ :=
    loadLoop_values ((t.register r).loadFn none)
      (t.register r).allow_missing_keys (t.register r).keys hnd data hp herr
      k hk
  have hvv : v0 = v' := by
    rw [hv'] at hv0
    exact (Option.some.inj hv0).symm
  subst hvv
  refine ⟨w, ?_, by rw [← hrec]; exact hres'⟩
  rw [← hcall v0 hs']
  exact hw

/-- Claim C9 witness: registering `wReader2` on `wLoadT` makes it the
resolved reader, and its result lands at key `img`. -/
theorem claim_C9_witness :
    (wLoadT.register wReader2)._loader.resolve none 3 = some wReader2 ∧
    (wLoadT.register wReader2)._loader.call 3 none = wReader2.read 3 ∧
    (∃ w, wReader2.read 1 = Except.ok w ∧
      lookupKey [("img", 1001), ("seg", 1002)] "img" = some w) := by
  have h := claim_C9_register_prefers_new wLoadT wReader2 3 rfl
  exact ⟨h.1, h.2.1,
    h.2.2 wData [("img", 1001), ("seg", 1002)] "img" 1 (by decide)
      (by decide) (by rfl) (by decide) (by decide) rfl⟩

/-- Claim C10: the deprecated constructor parameters (`meta_keys`,
`meta_key_postfix`, `overwriting`, `image_only` for `LoadImaged`;
`meta_keys`, `meta_key_postfix` for `SaveImaged`) have no effect: two
constructions differing only in them produce identical adapters, hence
identical `__call__` results on every record, because those parameters are
never forwarded to the wrapped service. -/
theorem claim_C10_deprecated_args_no_effect {V ε Rdr Dt A Wr : Type}
    (mkLoader : Rdr → Dt → Bool → A → LoadImage V ε)
    (mkSaver : String → String → String → Bool → String → String →
      Option Nat → Dt → Dt → Bool → String → Bool → Bool → String →
      Option Wr → SaveImage V ε)
    (keys : List Key) (reader : Rdr) (dtype : Dt)
    (mk1 mk2 : Option (List Key)) (mp1 mp2 : String)
    (ow1 ow2 io1 io2 ecf am : Bool) (ea : A)
    (skeys : List Key) (smk1 smk2 : Option (List Key)) (smp1 smp2 : String)
    (odir opfx oext : String) (resample : Bool) (mode pmode : String)
    (scale : Option Nat) (sdt sodt : Dt) (sam squeeze : Bool)
    (root : String) (sep plog : Bool) (ofmt : String) (wr : Option Wr) :
    LoadImaged.init mkLoader keys reader dtype mk1 mp1 ow1 io1 ecf am ea =
      LoadImaged.init mkLoader keys reader dtype mk2 mp2 ow2 io2 ecf am ea ∧
    (∀ (data : Record V) (rd : Option (ImageReader V ε)),
      (LoadImaged.init mkLoader keys reader dtype mk1 mp1 ow1 io1 ecf am
        ea).call data rd =
      (LoadImaged.init mkLoader keys reader dtype mk2 mp2 ow2 io2 ecf am
        ea).call data rd) ∧
    SaveImaged.init mkSaver skeys smk1 smp1 odir opfx oext resample mode
        pmode scale sdt sodt sam squeeze root sep plog ofmt wr =
      SaveImaged.init mkSaver skeys smk2 smp2 odir opfx oext resample mode
        pmode scale sdt sodt sam squeeze root sep plog ofmt wr ∧
    (∀ (data : Record V),
      (SaveImaged.init mkSaver skeys smk1 smp1 odir opfx oext resample mode
        pmode scale sdt sodt sam squeeze root sep plog ofmt wr).call data =
      (SaveImaged.init mkSaver skeys smk2 smp2 odir opfx oext resample mode
        pmode scale sdt sodt sam squeeze root sep plog ofmt wr).call data) :=
  ⟨rfl, fun _ _ => rfl, rfl, fun _ => rfl⟩
